import Mathlib

/-
  A shallow embedding of pucauto.py (the trade-matching and bundle-dispatch
  engine of pucauto).  Python dictionaries are modelled as association lists
  in insertion order, the browser collaborator is modelled as an environment
  of pure query functions plus an explicit trace of the actions the engine
  asks it to perform, and the functions of the source file are translated
  one by one:

    send_card                  -> Pucauto.send_card
    complete_trades            -> Pucauto.complete_trades (with its loop
                                  Pucauto.send_loop)
    build_trades_dict          -> Pucauto.build_trades_dict
    find_highest_value_bundle  -> Pucauto.find_highest_value_bundle
                                  (with Python max as Pucauto.maxByValue)
    find_add_on_bundles        -> Pucauto.find_add_on_bundles
    find_trades                -> Pucauto.find_trades (its decision core,
                                  after the page scrape, is
                                  Pucauto.find_trades_core)
    load_unshipped_traders     -> Pucauto.load_unshipped_traders

  Fallible parsing (a row missing a required field raises in Python) is
  modelled with Except.  Python sorted(key, reverse=True) is a stable
  descending sort, modelled by insertion sort Pucauto.sortDesc.
-/

namespace Pucauto

/-- Configuration values from config.json that the engine consults. -/
structure Config where
  debug : Bool
  min_value : Int
  find_add_ons : Bool
deriving Repr, DecidableEq

/-- A card offered for trade: its name, its point value and the sendcard
link used to initiate a send. -/
structure Card where
  name : String
  value : Int
  href : String
deriving Repr, DecidableEq

/-- One trader's aggregated offer, as built by build_trades_dict: the list
of cards in row order, the trader's profile name, the trader's points and
the accumulated total value of the cards. -/
structure Bundle where
  cards : List Card
  name : String
  points : Int
  value : Int
deriving Repr, DecidableEq

/-- One scraped row of the /trades table.  Every field the Python code
reads out of the row is an Option: a missing field makes the corresponding
find return None and the subsequent access raise. -/
structure RawRow where
  member_points : Option Int
  member_id : Option String
  member_name : Option String
  card_name : Option String
  card_value : Option Int
  card_href : Option String
deriving Repr, DecidableEq

/-- All fields of the row are present. -/
def RawRow.wf (r : RawRow) : Bool :=
  r.member_points.isSome && r.member_id.isSome && r.member_name.isSome &&
    r.card_name.isSome && r.card_value.isSome && r.card_href.isSome

/-- The trader id of a well-formed row. -/
def RawRow.pid (r : RawRow) : String := r.member_id.getD ""

/-- The trader name of a well-formed row. -/
def RawRow.pname (r : RawRow) : String := r.member_name.getD ""

/-- The trader points of a well-formed row. -/
def RawRow.pts (r : RawRow) : Int := r.member_points.getD 0

/-- The card a well-formed row describes, with the absolute sendcard link
the Python code builds by prefixing the site origin. -/
def rowCard (r : RawRow) : Card :=
  ⟨r.card_name.getD "", r.card_value.getD 0,
    "https://pucatrade.com" ++ r.card_href.getD ""⟩

/-- The unshipped-traders dictionary: trader id to trader profile name, in
insertion order. -/
abbrev Registry := List (String × String)

/-- The trades dictionary built from the page: trader id to Bundle, in
insertion order. -/
abbrev TradesTable := List (String × Bundle)

/-- Python key-membership test on the registry dictionary. -/
def regContains (u : Registry) (k : String) : Bool :=
  u.any (fun p => decide (p.1 = k))

/-- Python dictionary assignment on the registry: overwrite the value of an
existing key, otherwise append a fresh entry. -/
def regInsert (k v : String) : Registry → Registry
  | [] => [(k, v)]
  | (k', v') :: rest =>
    if k' = k then (k', v) :: rest else (k', v') :: regInsert k v rest

/-- Python dictionary lookup on the trades table. -/
def lookupA (t : TradesTable) (id : String) : Option Bundle :=
  match t with
  | [] => none
  | (k, b) :: rest => if k = id then some b else lookupA rest id

/-- One row's effect on the trades table: append the card to an existing
trader's bundle and accumulate its value, or create the bundle on the first
occurrence of the trader. -/
def tradesInsert (id nm : String) (pts : Int) (c : Card) : TradesTable → TradesTable
  | [] => [(id, ⟨[c], nm, pts, c.value⟩)]
  | (k, b) :: rest =>
    if k = id then
      (k, { b with cards := b.cards ++ [c], value := b.value + c.value }) :: rest
    else
      (k, b) :: tradesInsert id nm pts c rest

/-- Python dictionary pop of a trader from the trades table. -/
def tradesPop (id : String) (t : TradesTable) : TradesTable :=
  t.filter (fun p => decide (p.1 ≠ id))

/-- An action the engine asks of its collaborator or console: navigating to
a page, looking for the confirm-trade button, reading the h3 failure text,
or printing a message. -/
inductive Action where
  | getPage (url : String)
  | findConfirm
  | readReason
  | printMsg (msg : String)
deriving Repr, DecidableEq

/-- Whether the action touches the browser collaborator (printing to the
console does not). -/
def Action.isCollab : Action → Bool
  | getPage _ => true
  | findConfirm => true
  | readReason => true
  | printMsg _ => false

/-- The collaborator's responses: whether the confirm-trade button is
present after navigating to a card's send page, and the h3 text shown when
it is not. -/
structure Env where
  confirmPresent : Card → Bool
  failReason : Card → String

/-- The debug-mode skip message of send_card. -/
def debug_skip_message (c : Card) : String :=
  "  DEBUG: Skipping send of " ++ c.name

/-- The failure message of send_card. -/
def fail_message (c : Card) (reason : String) : String :=
  "  Failed to send " ++ c.name ++ ". Reason: " ++ reason

/-- The success message of send_card; the Python code picks the verb by
indexing a two-element list with the add_on flag. -/
def sent_message (addOn : Bool) (c : Card) : String :=
  "  " ++ (if addOn then "Added" else "Sent") ++ " " ++ c.name ++ " for " ++
    toString c.value ++ " PucaPoints!"

/-- The confirm URL derived from the sendcard URL. -/
def confirm_href (href : String) : String :=
  href.replace "sendcard" "confirm"

/-- send_card: in debug mode print a skip message and report not sent
without touching the collaborator; otherwise navigate to the send page,
look for the confirm button, on failure read and print the h3 reason and
report not sent, on success navigate to the confirm page, print the
success message and report sent. -/
def send_card (cfg : Config) (env : Env) (c : Card) (addOn : Bool) :
    Bool × List Action :=
  if cfg.debug then
    (false, [Action.printMsg (debug_skip_message c)])
  else if env.confirmPresent c then
    (true, [Action.getPage c.href, Action.findConfirm,
            Action.getPage (confirm_href c.href),
            Action.printMsg (sent_message addOn c)])
  else
    (false, [Action.getPage c.href, Action.findConfirm, Action.readReason,
             Action.printMsg (fail_message c (env.failReason c))])

/-- Insert a card into a descending-sorted list, before the first card of
value not larger than its own, so that earlier cards of equal value stay
first. -/
def insertDesc (c : Card) : List Card → List Card
  | [] => [c]
  | x :: xs => if c.value < x.value then x :: insertDesc c xs else c :: x :: xs

/-- Python sorted(cards, key value, reverse True): a stable descending
sort. -/
def sortDesc (l : List Card) : List Card :=
  l.foldr insertDesc []

/-- The header message of complete_trades. -/
def found_message (n : Nat) (addOn : Bool) (b : Bundle) : String :=
  "Found " ++ toString n ++ (if addOn then " additional" else "") ++
    " card(s) worth " ++ toString b.value ++ " points to trade to " ++
    b.name ++ " who has " ++ toString b.points ++ " points..."

/-- The summary message of complete_trades. -/
def summary_message (addOn : Bool) (cnt n : Nat) (val : Int) : String :=
  "Successfully " ++ (if addOn then "added" else "sent") ++ " " ++
    toString cnt ++ " out of " ++ toString n ++ " cards worth " ++
    toString val ++ " points!"

/-- The card loop of complete_trades, threading the success count, the
success value and the trace of actions. -/
def send_loop (cfg : Config) (env : Env) (addOn : Bool) :
    List Card → Nat → Int → List Action → Nat × Int × List Action
  | [], cnt, val, tr => (cnt, val, tr)
  | c :: rest, cnt, val, tr =>
    let s := send_card cfg env c addOn
    send_loop cfg env addOn rest
      (if s.1 then cnt + 1 else cnt)
      (if s.1 then val + c.value else val)
      (tr ++ s.2)

/-- complete_trades: given no bundle report zero; otherwise sort the cards
by value descending, print the header, send every card in order, and print
the summary.  The Python function returns the success count and prints the
success value; the embedding returns the count, the value and the trace. -/
def complete_trades (cfg : Config) (env : Env)
    (bundle : Option (String × Bundle)) (addOn : Bool) :
    Nat × Int × List Action :=
  match bundle with
  | none => (0, 0, [])
  | some (_, b) =>
    let sorted_cards := sortDesc b.cards
    let r := send_loop cfg env addOn sorted_cards 0 0 []
    (r.1, r.2.1,
      Action.printMsg (found_message sorted_cards.length addOn b) :: r.2.2 ++
        [Action.printMsg (summary_message addOn r.1 sorted_cards.length r.2.1)])

/-- build_trades_dict: walk the rows in page order; a row whose member
fields are missing raises; a row whose trader is not in the unshipped
registry and whose points are below min_value is skipped before its card
fields are read; otherwise a row whose card fields are missing raises, and
a complete row inserts its card into the trader's bundle. -/
def build_trades_dict (cfg : Config) (unshipped : Registry) :
    List RawRow → TradesTable → Except String TradesTable
  | [], trades => .ok trades
  | r :: rest, trades =>
    match r.member_points, r.member_id, r.member_name with
    | some pts, some id, some nm =>
      if !regContains unshipped id && decide (pts < cfg.min_value) then
        build_trades_dict cfg unshipped rest trades
      else
        match r.card_name, r.card_value, r.card_href with
        | some cn, some cv, some ch =>
          build_trades_dict cfg unshipped rest
            (tradesInsert id nm pts ⟨cn, cv, "https://pucatrade.com" ++ ch⟩ trades)
        | _, _, _ => .error "malformed row"
    | _, _, _ => .error "malformed row"

/-- Python max with a key function: scan the list keeping the current
maximum, replacing it only on a strictly larger key, so the first maximal
element wins. -/
def maxByValue (best : String × Bundle) : TradesTable → String × Bundle
  | [] => best
  | x :: xs => maxByValue (if best.2.value < x.2.value then x else best) xs

/-- find_highest_value_bundle: None on an empty table, otherwise the first
entry of maximal value provided its value reaches min_value, else None. -/
def find_highest_value_bundle (cfg : Config) (trades : TradesTable) :
    Option (String × Bundle) :=
  match trades with
  | [] => none
  | t :: ts =>
    let hv := maxByValue t ts
    if cfg.min_value ≤ hv.2.value then some hv else none

/-- find_add_on_bundles: the sub-table of trades whose trader is a key of
the unshipped registry. -/
def find_add_on_bundles (trades : TradesTable) (unshipped : Registry) :
    TradesTable :=
  trades.filter (fun p => regContains unshipped p.1)

/-- The trace of dispatching every add-on bundle in table order; the
results are discarded by the caller. -/
def dispatch_add_ons (cfg : Config) (env : Env) (addOns : TradesTable) :
    List Action :=
  (addOns.map (fun p => (complete_trades cfg env (some p) true).2.2)).flatten

/-- The decision core of find_trades, after the page has been scraped into
a trades table: select the highest value bundle; if there is one, dispatch
it with the add-on flag set exactly when its trader is already in the
unshipped registry, register the trader on at least one success, and pop
the trader from the working table; then dispatch every add-on bundle of
the remaining table.  Returns the updated registry, the add-on set that
was dispatched and the trace. -/
def find_trades_core (cfg : Config) (env : Env) (trades : TradesTable)
    (unshipped : Registry) : Registry × TradesTable × List Action :=
  match find_highest_value_bundle cfg trades with
  | none =>
    let addOns := find_add_on_bundles trades unshipped
    (unshipped, addOns, dispatch_add_ons cfg env addOns)
  | some hv =>
    let r := complete_trades cfg env (some hv) (regContains unshipped hv.1)
    let unshipped' :=
      if 1 ≤ r.1 then regInsert hv.1 hv.2.name unshipped else unshipped
    let trades' := tradesPop hv.1 trades
    let addOns := find_add_on_bundles trades' unshipped'
    (unshipped', addOns, r.2.2 ++ dispatch_add_ons cfg env addOns)

/-- find_trades: parse the scraped rows against the current registry, then
run the decision core. -/
def find_trades (cfg : Config) (env : Env) (rows : List RawRow)
    (unshipped : Registry) :
    Except String (Registry × TradesTable × List Action) :=
  (build_trades_dict cfg unshipped rows []).map
    (fun trades => find_trades_core cfg env trades unshipped)

/-- The active-trades page as load_unshipped_traders sees it: whether the
dataTables filter input is present, and the trader links scraped from the
filtered page, each a profile href and a raw display name. -/
structure ActivePage where
  filterPresent : Bool
  traders : List (String × String)

/-- load_unshipped_traders: if the filter input is absent return the empty
dictionary built so far, leaving the refresh timestamp unchanged;
otherwise build a fresh dictionary from the trader links, stripping the
profile prefix from hrefs and whitespace from names, and advance the
refresh timestamp to now.  Returns the dictionary and the timestamp. -/
def load_unshipped_traders (page : ActivePage) (now lastCheck : Int) :
    Registry × Int :=
  if page.filterPresent then
    (page.traders.foldl
      (fun u t => regInsert (t.1.replace "/profiles/show/" "") t.2.trim u) [],
     now)
  else
    ([], lastCheck)

/-- The refresh call site in the main loop: the previous registry is
discarded and replaced wholesale by whatever load_unshipped_traders
returns. -/
def refresh_unshipped (_prev : Registry) (page : ActivePage)
    (now lastCheck : Int) : Registry × Int :=
  load_unshipped_traders page now lastCheck

/-- A row is eligible for the trades table when the trader's points reach
min_value or the trader is already in the unshipped registry. -/
def rowEligible (cfg : Config) (unshipped : Registry) (r : RawRow) : Bool :=
  regContains unshipped r.pid || decide (cfg.min_value ≤ r.pts)

/-- The effect of one well-formed row on the trades table. -/
def applyRow (cfg : Config) (unshipped : Registry) (t : TradesTable)
    (r : RawRow) : TradesTable :=
  if rowEligible cfg unshipped r then
    tradesInsert r.pid r.pname r.pts (rowCard r) t
  else
    t

/-- The rows of the snapshot that belong to a trader and are eligible. -/
def inclRows (cfg : Config) (unshipped : Registry) (id : String)
    (rows : List RawRow) : List RawRow :=
  rows.filter (fun r => decide (r.pid = id) && rowEligible cfg unshipped r)

/- ### Concrete fixtures -/

/-- A configuration with dry-run off and a 100 point floor. -/
def cfg0 : Config := ⟨false, 100, true⟩

/-- A configuration with dry-run on. -/
def cfgDebug : Config := ⟨true, 100, true⟩

/-- A collaborator on which every send reaches the confirm button. -/
def envOk : Env := ⟨fun _ => true, fun _ => "gone"⟩

/-- A collaborator on which no send reaches the confirm button. -/
def envFail : Env := ⟨fun _ => false, fun _ => "Not available"⟩

/-- A high-value card. -/
def card0 : Card := ⟨"Voice of Resurgence", 2350, "https://pucatrade.com/trades/sendcard/1"⟩

/-- A low-value card. -/
def card1 : Card := ⟨"Advent of the Wurm", 56, "https://pucatrade.com/trades/sendcard/2"⟩

/-- A two-card bundle above the floor. -/
def bundle0 : Bundle := ⟨[card0, card1], "Fry", 9001, 2406⟩

/-- A one-card bundle below the floor. -/
def bundle1 : Bundle := ⟨[card1], "Leela", 200, 56⟩

/-- A table with one primary candidate and one below-floor trader. -/
def trades0 : TradesTable := [("1984581", bundle0), ("42", bundle1)]

/-- A registry tracking the below-floor trader of trades0. -/
def reg0 : Registry := [("42", "Leela")]

/-- A registry tracking the primary trader of trades0. -/
def reg1 : Registry := [("1984581", "Fry")]

/-- Two bundles tied at the same total value. -/
def bundleT1 : Bundle := ⟨[card0], "Amy", 500, 500⟩

/-- The second of the two tied bundles. -/
def bundleT2 : Bundle := ⟨[card1], "Bender", 600, 500⟩

/-- A table with a value tie between its two entries. -/
def tieTable : TradesTable := [("7", bundleT1), ("8", bundleT2)]

/-- An active-trades page with the filter control present. -/
def page0 : ActivePage := ⟨true, [("/profiles/show/42", "Leela")]⟩

/-- An active-trades page with the filter control absent. -/
def pageAbsent : ActivePage := ⟨false, [("/profiles/show/42", "Leela")]⟩

/-- A row with every required field missing. -/
def badRow : RawRow := ⟨none, none, none, none, none, none⟩

/-- A well-formed row for a trader above the floor. -/
def goodRow : RawRow :=
  ⟨some 9001, some "1984581", some "Fry", some "Voice of Resurgence",
    some 2350, some "/trades/sendcard/1"⟩

/-- A well-formed row for a trader below the floor. -/
def lowRow : RawRow :=
  ⟨some 10, some "77", some "Kif", some "Advent of the Wurm", some 56,
    some "/trades/sendcard/2"⟩

/-- A non-skipped row (points above the floor) missing its card value. -/
def noCardRow : RawRow :=
  ⟨some 9001, some "1984581", some "Fry", some "Voice of Resurgence", none,
    some "/trades/sendcard/1"⟩

/- ### Lemmas about the stable descending sort -/

theorem mem_insertDesc {y c : Card} {l : List Card} :
    y ∈ insertDesc c l ↔ y = c ∨ y ∈ l := by
  induction l with
  | nil => simp [insertDesc]
  | cons x xs ih =>
    simp only [insertDesc]
    split
    · simp only [List.mem_cons, ih]
      tauto
    · simp only [List.mem_cons]

theorem pairwise_insertDesc {c : Card} {l : List Card}
    (h : l.Pairwise (fun a b => b.value ≤ a.value)) :
    (insertDesc c l).Pairwise (fun a b => b.value ≤ a.value) := by
  induction l with
  | nil => simp [insertDesc]
  | cons x xs ih =>
    rw [List.pairwise_cons] at h
    simp only [insertDesc]
    split
    · rename_i hlt
      rw [List.pairwise_cons]
      refine ⟨?_, ih h.2⟩
      intro y hy
      rcases mem_insertDesc.1 hy with rfl | hy'
      · exact le_of_lt hlt
      · exact h.1 y hy'
    · rename_i hge
      push_neg at hge
      rw [List.pairwise_cons]
      refine ⟨?_, List.pairwise_cons.2 h⟩
      intro y hy
      rcases List.mem_cons.1 hy with rfl | hy'
      · exact hge
      · exact le_trans (h.1 y hy') hge

theorem sortDesc_pairwise (l : List Card) :
    (sortDesc l).Pairwise (fun a b => b.value ≤ a.value) := by
  induction l with
  | nil => simp [sortDesc]
  | cons c xs ih => exact pairwise_insertDesc ih

theorem filter_insertDesc (c : Card) (l : List Card) (v : Int) :
    (insertDesc c l).filter (fun a => decide (a.value = v)) =
      if c.value = v then c :: l.filter (fun a => decide (a.value = v))
      else l.filter (fun a => decide (a.value = v)) := by
  induction l with
  | nil => by_cases hc : c.value = v <;> simp [insertDesc, hc]
  | cons x xs ih =>
    by_cases hlt : c.value < x.value
    · have hx : insertDesc c (x :: xs) = x :: insertDesc c xs := by
        simp [insertDesc, hlt]
      rw [hx]
      by_cases hc : c.value = v
      · have hxv : ¬ x.value = v := by omega
        simp [List.filter_cons, hxv, ih, hc]
      · simp [List.filter_cons, ih, hc]
    · have hx : insertDesc c (x :: xs) = c :: x :: xs := by
        simp [insertDesc, hlt]
      rw [hx]
      by_cases hc : c.value = v <;> simp [List.filter_cons, hc]

theorem sortDesc_filter (l : List Card) (v : Int) :
    (sortDesc l).filter (fun a => decide (a.value = v)) =
      l.filter (fun a => decide (a.value = v)) := by
  induction l with
  | nil => rfl
  | cons c xs ih =>
    have hs : sortDesc (c :: xs) = insertDesc c (sortDesc xs) := rfl
    rw [hs, filter_insertDesc]
    by_cases hc : c.value = v <;> simp [List.filter_cons, hc, ih]

/- ### Lemmas about the dispatch loop -/

theorem send_loop_spec (cfg : Config) (env : Env) (addOn : Bool)
    (l : List Card) :
    ∀ (cnt : Nat) (val : Int) (tr : List Action),
      send_loop cfg env addOn l cnt val tr =
        (cnt + (l.filter (fun c => (send_card cfg env c addOn).1)).length,
         val + ((l.filter (fun c => (send_card cfg env c addOn).1)).map
           Card.value).sum,
         tr ++ (l.map (fun c => (send_card cfg env c addOn).2)).flatten) := by
  induction l with
  | nil => intro cnt val tr; simp [send_loop]
  | cons c rest ih =>
    intro cnt val tr
    by_cases h : (send_card cfg env c addOn).1
    · rw [send_loop]
      simp only [h, ite_true]
      rw [ih]
      simp only [List.filter_cons, h, ite_true, List.map_cons,
        List.flatten_cons, List.length_cons, List.sum_cons, Prod.mk.injEq,
        List.append_assoc]
      refine ⟨by omega, by ring, by trivial⟩
    · rw [send_loop]
      rw [Bool.not_eq_true] at h
      simp only [h, Bool.false_eq_true, ite_false]
      rw [ih]
      simp [h, List.filter_cons, List.append_assoc]

/- ### Lemmas about the registry and the trades table -/

theorem regContains_regInsert_self (u : Registry) (k v : String) :
    regContains (regInsert k v u) k = true := by
  induction u with
  | nil => simp [regInsert, regContains]
  | cons p rest ih =>
    obtain ⟨k', v'⟩ := p
    by_cases h : k' = k
    · simp [regInsert, regContains, h]
    · simp only [regInsert, regContains, List.any_cons, if_neg h] at ih ⊢
      simp [ih, h]

theorem lookupA_tradesInsert_self (t : TradesTable) (id nm : String)
    (pts : Int) (c : Card) :
    lookupA (tradesInsert id nm pts c t) id =
      match lookupA t id with
      | some b => some { b with cards := b.cards ++ [c],
                                value := b.value + c.value }
      | none => some ⟨[c], nm, pts, c.value⟩ := by
  induction t with
  | nil => simp [tradesInsert, lookupA]
  | cons p rest ih =>
    obtain ⟨k, b⟩ := p
    by_cases h : k = id
    · subst h; simp [tradesInsert, lookupA]
    · simp [tradesInsert, lookupA, h, ih]

theorem lookupA_tradesInsert_ne (t : TradesTable) {id id' : String}
    (nm : String) (pts : Int) (c : Card) (h : id' ≠ id) :
    lookupA (tradesInsert id' nm pts c t) id = lookupA t id := by
  induction t with
  | nil => simp [tradesInsert, lookupA, h]
  | cons p rest ih =>
    obtain ⟨k, b⟩ := p
    by_cases hk : k = id'
    · subst hk
      simp [tradesInsert, lookupA, h]
    · by_cases hki : k = id
      · subst hki
        simp [tradesInsert, lookupA, hk]
      · simp [tradesInsert, lookupA, hk, hki, ih]

/- ### Lemmas about the parser -/

theorem build_trades_dict_ok (cfg : Config) (unshipped : Registry) :
    ∀ (rows : List RawRow) (acc : TradesTable),
      (∀ r ∈ rows, r.wf = true) →
      build_trades_dict cfg unshipped rows acc =
        .ok (rows.foldl (applyRow cfg unshipped) acc) := by
  intro rows
  induction rows with
  | nil => intro acc _; rfl
  | cons r rest ih =>
    intro acc hwf
    have hr : r.wf = true := hwf r (List.mem_cons_self r rest)
    have hrest : ∀ r' ∈ rest, r'.wf = true := fun r' hr' =>
      hwf r' (List.mem_cons_of_mem r hr')
    obtain ⟨mp, mi, mn, cn, cv, ch⟩ := r
    simp only [RawRow.wf, Bool.and_eq_true, Option.isSome_iff_exists] at hr
    obtain ⟨⟨⟨⟨⟨⟨pts, hpts⟩, id0, hid⟩, nm0, hnm⟩, cn0, hcn⟩, cv0, hcv⟩,
      ch0, hch⟩ := hr
    subst hpts hid hnm hcn hcv hch
    rw [List.foldl_cons]
    by_cases hc : regContains unshipped id0 = true
    · have h1 : (!regContains unshipped id0 &&
          decide (pts < cfg.min_value)) = false := by simp [hc]
      simp only [build_trades_dict, h1, Bool.false_eq_true, ite_false]
      rw [ih _ hrest]
      congr 1
      simp [applyRow, rowEligible, RawRow.pid, RawRow.pname, RawRow.pts,
        rowCard, hc]
    · by_cases hp : pts < cfg.min_value
      · have h1 : (!regContains unshipped id0 &&
            decide (pts < cfg.min_value)) = true := by simp [hc, hp]
        simp only [build_trades_dict, h1, ite_true]
        rw [ih _ hrest]
        congr 1
        have he : rowEligible cfg unshipped
            ⟨some pts, some id0, some nm0, some cn0, some cv0, some ch0⟩
              = false := by
          simp only [rowEligible, RawRow.pid, RawRow.pts, Option.getD_some,
            Bool.or_eq_false_iff, decide_eq_false_iff_not, not_le]
          exact ⟨by simpa using hc, hp⟩
        simp [applyRow, he]
      · have h1 : (!regContains unshipped id0 &&
            decide (pts < cfg.min_value)) = false := by simp [hp]
        simp only [build_trades_dict, h1, Bool.false_eq_true, ite_false]
        rw [ih _ hrest]
        congr 1
        have he : rowEligible cfg unshipped
            ⟨some pts, some id0, some nm0, some cn0, some cv0, some ch0⟩
              = true := by
          simp only [rowEligible, RawRow.pid, RawRow.pts, Option.getD_some]
          have : cfg.min_value ≤ pts := by omega
          simp [this]
        simp [applyRow, he, RawRow.pid, RawRow.pname, RawRow.pts, rowCard]

theorem lookupA_foldl_applyRow (cfg : Config) (unshipped : Registry) :
    ∀ (rows : List RawRow) (acc : TradesTable) (id : String),
      lookupA (rows.foldl (applyRow cfg unshipped) acc) id =
        match lookupA acc id with
        | some b => some { b with
            cards := b.cards ++ (inclRows cfg unshipped id rows).map rowCard,
            value := b.value + ((inclRows cfg unshipped id rows).map
              (fun r => (rowCard r).value)).sum }
        | none =>
          match inclRows cfg unshipped id rows with
          | [] => none
          | r0 :: rest0 => some ⟨rowCard r0 :: rest0.map rowCard, r0.pname,
              r0.pts,
              (rowCard r0).value + (rest0.map (fun r => (rowCard r).value)).sum⟩
      := by
  intro rows
  induction rows with
  | nil =>
    intro acc id
    cases hacc : lookupA acc id <;> simp [inclRows, hacc]
  | cons r rest ih =>
    intro acc id
    rw [List.foldl_cons]
    by_cases hm : (decide (r.pid = id) && rowEligible cfg unshipped r) = true
    · have hm' := hm
      rw [Bool.and_eq_true] at hm'
      have hpid : r.pid = id := of_decide_eq_true hm'.1
      have hel : rowEligible cfg unshipped r = true := hm'.2
      have hincl : inclRows cfg unshipped id (r :: rest) =
          r :: inclRows cfg unshipped id rest := by
        simp [inclRows, List.filter_cons, hm]
      have hacc' : applyRow cfg unshipped acc r =
          tradesInsert id r.pname r.pts (rowCard r) acc := by
        simp [applyRow, hel, hpid]
      rw [hacc', ih, lookupA_tradesInsert_self]
      cases hacc : lookupA acc id with
      | some b =>
        simp only [hacc, hincl, List.map_cons, List.sum_cons]
        simp [List.append_assoc, add_assoc]
      | none =>
        simp only [hacc, hincl, List.map_cons, List.sum_cons]
        simp
    · have hincl : inclRows cfg unshipped id (r :: rest) =
          inclRows cfg unshipped id rest := by
        simp [inclRows, List.filter_cons, hm]
      have hlook : lookupA (applyRow cfg unshipped acc r) id =
          lookupA acc id := by
        by_cases hel : rowEligible cfg unshipped r = true
        · have hpid : r.pid ≠ id := by
            intro hcontra
            exact hm (by simp [hcontra, hel])
          simp only [applyRow, hel, ite_true]
          exact lookupA_tradesInsert_ne acc r.pname r.pts (rowCard r) hpid
        · simp [applyRow, hel]
      rw [ih, hlook, hincl]

/- ### Lemmas about Python max over the trades table -/

theorem maxByValue_spec (l : TradesTable) :
    ∀ best : String × Bundle,
      (∀ y ∈ best :: l, y.2.value ≤ (maxByValue best l).2.value) ∧
      ∃ pre post, best :: l = pre ++ maxByValue best l :: post ∧
        ∀ y ∈ pre, y.2.value < (maxByValue best l).2.value := by
  induction l with
  | nil =>
    intro best
    refine ⟨?_, [], [], rfl, by simp⟩
    intro y hy
    rcases List.mem_singleton.1 hy with rfl
    exact le_refl _
  | cons x xs ih =>
    intro best
    have hstep : maxByValue best (x :: xs) =
        maxByValue (if best.2.value < x.2.value then x else best) xs := rfl
    by_cases hb : best.2.value < x.2.value
    · obtain ⟨hle, pre', post', hdec, hpre⟩ := ih x
      rw [hstep, if_pos hb]
      refine ⟨?_, best :: pre', post', ?_, ?_⟩
      · intro y hy
        rcases List.mem_cons.1 hy with rfl | hy'
        · exact le_trans (le_of_lt hb) (hle x (List.mem_cons_self x xs))
        · exact hle y hy'
      · rw [List.cons_append, ← hdec]
      · intro y hy
        rcases List.mem_cons.1 hy with rfl | hy'
        · exact lt_of_lt_of_le hb (hle x (List.mem_cons_self x xs))
        · exact hpre y hy'
    · obtain ⟨hle, pre', post', hdec, hpre⟩ := ih best
      rw [hstep, if_neg hb]
      push_neg at hb
      have hxle : x.2.value ≤ (maxByValue best xs).2.value :=
        le_trans hb (hle best (List.mem_cons_self best xs))
      refine ⟨?_, ?_⟩
      · intro y hy
        rcases List.mem_cons.1 hy with rfl | hy'
        · exact hle _ (List.mem_cons_self _ xs)
        rcases List.mem_cons.1 hy' with rfl | hy''
        · exact hxle
        · exact hle y (List.mem_cons_of_mem _ hy'')
      · cases pre' with
        | nil =>
          rw [List.nil_append] at hdec
          have hM : maxByValue best xs = best := (List.cons.inj hdec).1.symm
          refine ⟨[], x :: xs, ?_, by simp⟩
          rw [List.nil_append, hM]
        | cons p pre₂ =>
          rw [List.cons_append] at hdec
          have hp : best = p := (List.cons.inj hdec).1
          have hxs : xs = pre₂ ++ maxByValue best xs :: post' :=
            (List.cons.inj hdec).2
          subst hp
          refine ⟨best :: x :: pre₂, post', ?_, ?_⟩
          · rw [List.cons_append, List.cons_append, ← hxs]
          · intro y hy
            rcases List.mem_cons.1 hy with rfl | hy'
            · exact hpre _ (List.mem_cons_self _ _)
            rcases List.mem_cons.1 hy' with rfl | hy''
            · exact lt_of_le_of_lt hb (hpre _ (List.mem_cons_self _ _))
            · exact hpre y (List.mem_cons_of_mem _ hy'')

/- ### The shape of a dispatch -/

theorem complete_trades_count (cfg : Config) (env : Env) (id : String)
    (b : Bundle) (addOn : Bool) :
    (complete_trades cfg env (some (id, b)) addOn).1 =
      ((sortDesc b.cards).filter
        (fun c => (send_card cfg env c addOn).1)).length := by
  simp [complete_trades, send_loop_spec]

theorem complete_trades_value (cfg : Config) (env : Env) (id : String)
    (b : Bundle) (addOn : Bool) :
    (complete_trades cfg env (some (id, b)) addOn).2.1 =
      (((sortDesc b.cards).filter
        (fun c => (send_card cfg env c addOn).1)).map Card.value).sum := by
  simp [complete_trades, send_loop_spec]

theorem complete_trades_trace (cfg : Config) (env : Env) (id : String)
    (b : Bundle) (addOn : Bool) :
    (complete_trades cfg env (some (id, b)) addOn).2.2 =
      Action.printMsg (found_message (sortDesc b.cards).length addOn b) ::
        ((sortDesc b.cards).map
          (fun c => (send_card cfg env c addOn).2)).flatten ++
        [Action.printMsg (summary_message addOn
          (complete_trades cfg env (some (id, b)) addOn).1
          (sortDesc b.cards).length
          (complete_trades cfg env (some (id, b)) addOn).2.1)] := by
  simp [complete_trades, send_loop_spec]

theorem sent_print_mem_complete_trades (cfg : Config) (env : Env)
    (id : String) (b : Bundle) (addOn : Bool) (c : Card)
    (hdbg : cfg.debug = false) (hc : c ∈ sortDesc b.cards)
    (hok : env.confirmPresent c = true) :
    Action.printMsg (sent_message addOn c) ∈
      (complete_trades cfg env (some (id, b)) addOn).2.2 := by
  rw [complete_trades_trace]
  rw [List.cons_append, List.mem_cons]
  right
  rw [List.mem_append]
  left
  rw [List.mem_flatten]
  refine ⟨(send_card cfg env c addOn).2, List.mem_map_of_mem _ hc, ?_⟩
  have hsend : send_card cfg env c addOn =
      (true, [Action.getPage c.href, Action.findConfirm,
              Action.getPage (confirm_href c.href),
              Action.printMsg (sent_message addOn c)]) := by
    simp [send_card, hdbg, hok]
  rw [hsend]
  simp

/- ### Claim theorems -/

/-- C3: DispatchEngine.send (complete_trades) attempts the bundle's cards
in descending order of value with equal-value cards keeping their original
relative order (the attempted order is a stable descending sort of the
cards: pairwise descending and, value by value, the same subsequence as
the input); its trace is the header print followed by the per-card send
traces of every sorted card in order, so one card's failure never prevents
the remaining cards from being attempted; and the success count and
success value are exactly the number of cards whose send succeeded and the
sum of their values. -/
theorem complete_trades_spec (cfg : Config) (env : Env) (id : String)
    (b : Bundle) (addOn : Bool) :
    ((sortDesc b.cards).Pairwise (fun a c => c.value ≤ a.value)) ∧
    (∀ v : Int, (sortDesc b.cards).filter (fun c => decide (c.value = v)) =
      b.cards.filter (fun c => decide (c.value = v))) ∧
    (complete_trades cfg env (some (id, b)) addOn).1 =
      ((sortDesc b.cards).filter
        (fun c => (send_card cfg env c addOn).1)).length ∧
    (complete_trades cfg env (some (id, b)) addOn).2.1 =
      (((sortDesc b.cards).filter
        (fun c => (send_card cfg env c addOn).1)).map Card.value).sum ∧
    (complete_trades cfg env (some (id, b)) addOn).2.2 =
      Action.printMsg (found_message (sortDesc b.cards).length addOn b) ::
        ((sortDesc b.cards).map
          (fun c => (send_card cfg env c addOn).2)).flatten ++
        [Action.printMsg (summary_message addOn
          (complete_trades cfg env (some (id, b)) addOn).1
          (sortDesc b.cards).length
          (complete_trades cfg env (some (id, b)) addOn).2.1)] :=
  ⟨sortDesc_pairwise b.cards, sortDesc_filter b.cards,
   complete_trades_count cfg env id b addOn,
   complete_trades_value cfg env id b addOn,
   complete_trades_trace cfg env id b addOn⟩

/-- C9: with the debug dry-run flag enabled, a dispatch returns zero
successes and zero success value, and its whole trace consists of console
prints: no collaborator send or confirm action is invoked for any card of
any bundle. -/
theorem dry_run_containment (cfg : Config) (env : Env)
    (bundle : Option (String × Bundle)) (addOn : Bool)
    (hdbg : cfg.debug = true) :
    (complete_trades cfg env bundle addOn).1 = 0 ∧
    (complete_trades cfg env bundle addOn).2.1 = 0 ∧
    ∀ a ∈ (complete_trades cfg env bundle addOn).2.2, a.isCollab = false := by
  have hsend : ∀ c : Card, send_card cfg env c addOn =
      (false, [Action.printMsg (debug_skip_message c)]) := by
    intro c
    simp [send_card, hdbg]
  cases bundle with
  | none => exact ⟨rfl, rfl, by simp [complete_trades]⟩
  | some p =>
    obtain ⟨id, b⟩ := p
    have hfilter : (sortDesc b.cards).filter
        (fun c => (send_card cfg env c addOn).1) = [] := by
      rw [List.filter_eq_nil_iff]
      intro c _
      rw [hsend c]
      simp
    refine ⟨?_, ?_, ?_⟩
    · rw [complete_trades_count, hfilter]
      rfl
    · rw [complete_trades_value, hfilter]
      rfl
    · intro a ha
      rw [complete_trades_trace, List.cons_append, List.mem_cons] at ha
      rcases ha with rfl | ha
      · rfl
      rw [List.mem_append] at ha
      rcases ha with ha | ha
      · rw [List.mem_flatten] at ha
        obtain ⟨s, hs, has⟩ := ha
        rw [List.mem_map] at hs
        obtain ⟨c, _, rfl⟩ := hs
        rw [hsend c] at has
        rcases List.mem_singleton.1 has with rfl
        rfl
      · rcases List.mem_singleton.1 ha with rfl
        rfl

/-- C9 witness: a dry-run dispatch of a concrete bundle. -/
theorem dry_run_containment_witness :
    (complete_trades cfgDebug envOk (some ("1984581", bundle0)) false).1 = 0 ∧
    (complete_trades cfgDebug envOk (some ("1984581", bundle0)) false).2.1 = 0 ∧
    ∀ a ∈ (complete_trades cfgDebug envOk
        (some ("1984581", bundle0)) false).2.2, a.isCollab = false :=
  dry_run_containment cfgDebug envOk (some ("1984581", bundle0)) false rfl

/-- C6 counterexample: a failing add-on card (dry-run off, confirm
affordance absent, isAddOn true) still has its failure reason extracted
from the page and printed: reason extraction is not suppressed for
add-ons, contrary to the claim. -/
theorem send_card_addon_reason_not_suppressed :
    (send_card cfg0 envFail card0 true).1 = false ∧
    Action.readReason ∈ (send_card cfg0 envFail card0 true).2 ∧
    Action.printMsg (fail_message card0 "Not available") ∈
      (send_card cfg0 envFail card0 true).2 := by
  refine ⟨rfl, ?_, ?_⟩ <;> simp [send_card, cfg0, envFail]

/-- C6 amended: whenever a card's send fails (dry-run off, confirm
affordance absent), send_card extracts the h3 failure reason and prints a
failure message containing it, whatever the isAddOn flag. -/
theorem send_card_failure_reports_reason (cfg : Config) (env : Env)
    (c : Card) (addOn : Bool) (hdbg : cfg.debug = false)
    (hfail : env.confirmPresent c = false) :
    (send_card cfg env c addOn).1 = false ∧
    Action.readReason ∈ (send_card cfg env c addOn).2 ∧
    Action.printMsg (fail_message c (env.failReason c)) ∈
      (send_card cfg env c addOn).2 := by
  simp [send_card, hdbg, hfail]

/-- C6 witness: the amended behaviour at a concrete failing card. -/
theorem send_card_failure_reports_reason_witness :
    (send_card cfg0 envFail card1 false).1 = false ∧
    Action.readReason ∈ (send_card cfg0 envFail card1 false).2 ∧
    Action.printMsg (fail_message card1 (envFail.failReason card1)) ∈
      (send_card cfg0 envFail card1 false).2 :=
  send_card_failure_reports_reason cfg0 envFail card1 false rfl rfl

/-- C7: the refresh call site replaces the registry wholesale - the result
is the same whatever the previous contents were; on a successful listing
the refresh timestamp is reset to now; when the listing filter control is
absent the refresh returns an empty mapping instead of failing. -/
theorem refresh_unshipped_spec (prev prev' : Registry) (page : ActivePage)
    (now lastCheck : Int) :
    refresh_unshipped prev page now lastCheck =
      refresh_unshipped prev' page now lastCheck ∧
    (page.filterPresent = true →
      (refresh_unshipped prev page now lastCheck).2 = now) ∧
    (page.filterPresent = false →
      (refresh_unshipped prev page now lastCheck).1 = []) := by
  refine ⟨rfl, ?_, ?_⟩ <;> intro h <;>
    simp [refresh_unshipped, load_unshipped_traders, h]

/-- C7 witness: a successful refresh resets the timestamp, a degraded
refresh yields the empty mapping. -/
theorem refresh_unshipped_spec_witness :
    (refresh_unshipped reg0 page0 5 0).2 = 5 ∧
    (refresh_unshipped reg0 pageAbsent 5 0).1 = [] :=
  ⟨(refresh_unshipped_spec reg0 [] page0 5 0).2.1 rfl,
   (refresh_unshipped_spec reg0 [] pageAbsent 5 0).2.2 rfl⟩

/-- C8 counterexample: a malformed first row (missing every required
field) aborts build_trades_dict with an error even though a well-formed
row follows: the malformed row is not skipped and parsing does not
continue. -/
theorem build_trades_dict_malformed_counterexample :
    build_trades_dict cfg0 [] [badRow, goodRow] [] =
      .error "malformed row" := rfl

/-- C8 amended: a row missing a required field - a member field, or a
card field on a row the threshold/registry gate does not skip - makes
build_trades_dict abort the whole parse with an error: the row is not
skipped, no defect count is kept, and the remaining rows are never
examined. -/
theorem build_trades_dict_malformed_aborts (cfg : Config)
    (unshipped : Registry) (r : RawRow) (rest : List RawRow)
    (acc : TradesTable)
    (h : r.member_points = none ∨ r.member_id = none ∨
      r.member_name = none ∨
      (rowEligible cfg unshipped r = true ∧
        (r.card_name = none ∨ r.card_value = none ∨ r.card_href = none))) :
    build_trades_dict cfg unshipped (r :: rest) acc =
      .error "malformed row" := by
  obtain ⟨mp, mi, mn, cn, cv, ch⟩ := r
  rcases h with h | h | h | ⟨hel, hcard⟩
  · subst h
    cases mi <;> cases mn <;> rfl
  · subst h
    cases mp <;> cases mn <;> rfl
  · subst h
    cases mp <;> cases mi <;> rfl
  · cases mp with
    | none => cases mi <;> cases mn <;> rfl
    | some pts =>
      cases mi with
      | none => cases mn <;> rfl
      | some id0 =>
        cases mn with
        | none => rfl
        | some nm0 =>
          have hskip : (!regContains unshipped id0 &&
              decide (pts < cfg.min_value)) = false := by
            simp only [rowEligible, RawRow.pid, RawRow.pts,
              Option.getD_some, Bool.or_eq_true, decide_eq_true_eq] at hel
            rcases hel with hc | hp
            · simp [hc]
            · have hnp : ¬ pts < cfg.min_value := by omega
              simp [hnp]
          simp only [build_trades_dict, hskip, Bool.false_eq_true,
            ite_false]
          rcases hcard with h | h | h
          · subst h
            cases cv <;> cases ch <;> rfl
          · subst h
            cases cn <;> cases ch <;> rfl
          · subst h
            cases cn <;> cases cv <;> rfl

/-- C8 witness: the amended behaviour at a row missing every member field
and at a non-skipped row missing its card value. -/
theorem build_trades_dict_malformed_aborts_witness :
    build_trades_dict cfg0 reg0 [badRow] [] = .error "malformed row" ∧
    build_trades_dict cfg0 reg0 [noCardRow, goodRow] [] =
      .error "malformed row" :=
  ⟨build_trades_dict_malformed_aborts cfg0 reg0 badRow [] [] (Or.inl rfl),
   build_trades_dict_malformed_aborts cfg0 reg0 noCardRow [goodRow] []
     (Or.inr (Or.inr (Or.inr ⟨by decide, Or.inr (Or.inl rfl)⟩)))⟩

/-- C2: find_highest_value_bundle returns none exactly when the table is
empty or every entry's total value (hence the maximum) is below min_value;
otherwise it returns an entry whose value reaches min_value and is maximal
over the table, and the first such entry in table order: every entry
before it has strictly smaller value, so a tie is always resolved to the
earlier entry, deterministically. -/
theorem find_highest_value_bundle_spec (cfg : Config)
    (trades : TradesTable) :
    (find_highest_value_bundle cfg trades = none ↔
      trades = [] ∨ ∀ p ∈ trades, p.2.value < cfg.min_value) ∧
    ∀ hv, find_highest_value_bundle cfg trades = some hv →
      cfg.min_value ≤ hv.2.value ∧
      (∀ p ∈ trades, p.2.value ≤ hv.2.value) ∧
      ∃ pre post, trades = pre ++ hv :: post ∧
        ∀ p ∈ pre, p.2.value < hv.2.value := by
  cases trades with
  | nil =>
    constructor
    · simp [find_highest_value_bundle]
    · intro hv h
      simp [find_highest_value_bundle] at h
  | cons t ts =>
    obtain ⟨hle, pre, post, hdec, hpre⟩ := maxByValue_spec ts t
    constructor
    · constructor
      · intro hnone
        right
        simp only [find_highest_value_bundle] at hnone
        by_cases hge : cfg.min_value ≤ (maxByValue t ts).2.value
        · simp [hge] at hnone
        · push_neg at hge
          intro p hp
          exact lt_of_le_of_lt (hle p hp) hge
      · intro h
        rcases h with h | h
        · exact absurd h (List.cons_ne_nil t ts)
        · have hmem : maxByValue t ts ∈ t :: ts := by
            rw [hdec]
            exact List.mem_append_right pre (List.mem_cons_self _ _)
          have hlt := h _ hmem
          simp [find_highest_value_bundle, not_le.2 hlt]
    · intro hv hsome
      simp only [find_highest_value_bundle] at hsome
      by_cases hge : cfg.min_value ≤ (maxByValue t ts).2.value
      · rw [if_pos hge] at hsome
        injection hsome with hsome
        subst hsome
        exact ⟨hge, hle, pre, post, hdec, hpre⟩
      · rw [if_neg hge] at hsome
        exact absurd hsome (by simp)

/-- C2 witness: on a table whose two entries tie at value 500 the first
entry wins, repeatably. -/
theorem find_highest_value_bundle_spec_witness :
    cfg0.min_value ≤ bundleT1.value ∧
    (∀ p ∈ tieTable, p.2.value ≤ bundleT1.value) ∧
    ∃ pre post, tieTable = pre ++ ("7", bundleT1) :: post ∧
      ∀ p ∈ pre, p.2.value < bundleT1.value :=
  (find_highest_value_bundle_spec cfg0 tieTable).2 ("7", bundleT1) (by decide)

/-- C4: on well-formed rows the parse succeeds and, for every trader id,
the resulting bundle holds exactly the cards of that trader's included
rows - a row being included exactly when its trader's points reach
min_value or its trader is in the registry - with as many cards as there
are such rows and a total value equal to the sum of those cards' values;
a trader with no included row is absent from the table. -/
theorem build_trades_dict_spec (cfg : Config) (unshipped : Registry)
    (rows : List RawRow) (hwf : ∀ r ∈ rows, r.wf = true) :
    ∃ t, build_trades_dict cfg unshipped rows [] = .ok t ∧
      ∀ id : String,
        match lookupA t id with
        | some b =>
          b.cards = (inclRows cfg unshipped id rows).map rowCard ∧
          b.cards.length = (inclRows cfg unshipped id rows).length ∧
          b.value = ((inclRows cfg unshipped id rows).map
            (fun r => (rowCard r).value)).sum ∧
          inclRows cfg unshipped id rows ≠ []
        | none => inclRows cfg unshipped id rows = [] := by
  refine ⟨rows.foldl (applyRow cfg unshipped) [],
    build_trades_dict_ok cfg unshipped rows [] hwf, ?_⟩
  intro id
  have h := lookupA_foldl_applyRow cfg unshipped rows [] id
  simp only [lookupA] at h
  cases hincl : inclRows cfg unshipped id rows with
  | nil =>
    rw [hincl] at h
    rw [h]
  | cons r0 rest0 =>
    rw [hincl] at h
    rw [h]
    simp [hincl]

/-- C4 witness: two well-formed rows, one included by points, one skipped
for being below the floor with its trader not in the registry. -/
theorem build_trades_dict_spec_witness :
    ∃ t, build_trades_dict cfg0 [] [goodRow, lowRow] [] = .ok t ∧
      ∀ id : String,
        match lookupA t id with
        | some b =>
          b.cards = (inclRows cfg0 [] id [goodRow, lowRow]).map rowCard ∧
          b.cards.length = (inclRows cfg0 [] id [goodRow, lowRow]).length ∧
          b.value = ((inclRows cfg0 [] id [goodRow, lowRow]).map
            (fun r => (rowCard r).value)).sum ∧
          inclRows cfg0 [] id [goodRow, lowRow] ≠ []
        | none => inclRows cfg0 [] id [goodRow, lowRow] = [] :=
  build_trades_dict_spec cfg0 [] [goodRow, lowRow] (by decide)

/-- C1: the registry after a cycle's dispatches is exactly the registry
before with the primary trader inserted when the primary dispatch
succeeded on at least one card; a zero-success primary leaves the registry
unchanged, as does the absence of a primary, and the add-on dispatches
never insert into or remove from it whatever their outcomes. -/
theorem find_trades_registry_update (cfg : Config) (env : Env)
    (trades : TradesTable) (unshipped : Registry) :
    (find_highest_value_bundle cfg trades = none →
      (find_trades_core cfg env trades unshipped).1 = unshipped) ∧
    ∀ hv, find_highest_value_bundle cfg trades = some hv →
      (1 ≤ (complete_trades cfg env (some hv)
          (regContains unshipped hv.1)).1 →
        (find_trades_core cfg env trades unshipped).1 =
          regInsert hv.1 hv.2.name unshipped ∧
        regContains (find_trades_core cfg env trades unshipped).1 hv.1
          = true) ∧
      ((complete_trades cfg env (some hv)
          (regContains unshipped hv.1)).1 = 0 →
        (find_trades_core cfg env trades unshipped).1 = unshipped) := by
  constructor
  · intro h
    simp [find_trades_core, h]
  · intro hv h
    constructor
    · intro hcnt
      have heq : (find_trades_core cfg env trades unshipped).1 =
          regInsert hv.1 hv.2.name unshipped := by
        simp [find_trades_core, h, hcnt]
      refine ⟨heq, ?_⟩
      rw [heq]
      exact regContains_regInsert_self unshipped hv.1 hv.2.name
    · intro hcnt
      simp [find_trades_core, h, hcnt]

/-- C1 witness: a concrete cycle whose primary dispatch succeeds on both
cards registers the trader. -/
theorem find_trades_registry_update_witness :
    (find_trades_core cfg0 envOk trades0 []).1 =
      regInsert "1984581" "Fry" [] ∧
    regContains (find_trades_core cfg0 envOk trades0 []).1 "1984581"
      = true :=
  ((find_trades_registry_update cfg0 envOk trades0 []).2
    ("1984581", bundle0) (by decide)).1 (by decide)

/-- C5: when a primary bundle is selected its trader's entry is popped
from the working table - whether or not any card succeeded - before the
add-on set is computed, so the dispatched add-on set never contains the
primary trader: every dispatched add-on bundle belongs to a different
trader and comes from the original table. -/
theorem no_double_send (cfg : Config) (env : Env) (trades : TradesTable)
    (unshipped : Registry) (hv : String × Bundle)
    (hsel : find_highest_value_bundle cfg trades = some hv) :
    ∀ p ∈ (find_trades_core cfg env trades unshipped).2.1,
      p.1 ≠ hv.1 ∧ p ∈ trades := by
  intro p hp
  simp only [find_trades_core, hsel] at hp
  simp only [find_add_on_bundles, tradesPop, List.mem_filter] at hp
  obtain ⟨⟨hpt, hpne⟩, _⟩ := hp
  exact ⟨of_decide_eq_true hpne, hpt⟩

/-- C5 witness: in a concrete cycle with a registry-tracked second trader,
that trader's bundle is dispatched as an add-on and is not the primary. -/
theorem no_double_send_witness :
    ("42", bundle1).1 ≠ "1984581" ∧ ("42", bundle1) ∈ trades0 :=
  no_double_send cfg0 envOk trades0 reg0 ("1984581", bundle0) (by decide)
    ("42", bundle1) (by decide)

/-- C10: the cycle's trace begins with the primary dispatch executed by
complete_trades with the add-on flag set exactly to whether the primary
trader is already in the unshipped registry, and each confirmed card of
the primary is consequently reported with the wording selected by that
membership (Added when the trader is tracked, Sent when not). -/
theorem primary_dispatch_addon_mode (cfg : Config) (env : Env)
    (trades : TradesTable) (unshipped : Registry) (hv : String × Bundle)
    (c : Card) (hsel : find_highest_value_bundle cfg trades = some hv)
    (hdbg : cfg.debug = false) (hc : c ∈ sortDesc hv.2.cards)
    (hok : env.confirmPresent c = true) :
    (∃ tr, (find_trades_core cfg env trades unshipped).2.2 =
      (complete_trades cfg env (some hv)
        (regContains unshipped hv.1)).2.2 ++ tr) ∧
    Action.printMsg (sent_message (regContains unshipped hv.1) c) ∈
      (find_trades_core cfg env trades unshipped).2.2 := by
  have htrace : (find_trades_core cfg env trades unshipped).2.2 =
      (complete_trades cfg env (some hv)
        (regContains unshipped hv.1)).2.2 ++
      dispatch_add_ons cfg env (find_add_on_bundles
        (tradesPop hv.1 trades)
        (if 1 ≤ (complete_trades cfg env (some hv)
            (regContains unshipped hv.1)).1 then
          regInsert hv.1 hv.2.name unshipped else unshipped)) := by
    simp [find_trades_core, hsel]
  refine ⟨⟨_, htrace⟩, ?_⟩
  rw [htrace, List.mem_append]
  left
  exact sent_print_mem_complete_trades cfg env hv.1 hv.2
    (regContains unshipped hv.1) c hdbg hc hok

/-- C10 witness: with the primary trader already tracked in the registry,
its confirmed high-value card is reported with the Added wording. -/
theorem primary_dispatch_addon_mode_witness :
    (∃ tr, (find_trades_core cfg0 envOk trades0 reg1).2.2 =
      (complete_trades cfg0 envOk (some ("1984581", bundle0))
        (regContains reg1 "1984581")).2.2 ++ tr) ∧
    Action.printMsg (sent_message (regContains reg1 "1984581") card0) ∈
      (find_trades_core cfg0 envOk trades0 reg1).2.2 :=
  primary_dispatch_addon_mode cfg0 envOk trades0 reg1
    ("1984581", bundle0) card0 (by decide) rfl (by decide) rfl

end Pucauto
